import Mathlib

/-!
Verification of the TopicStreams scrape-cycle orchestrator
(src/scraper/main.py, src/common/settings.py).

The orchestrator's pure logic is shallowly embedded here:

* news-entry dedup (src/scraper/main.py, lines 53-64) and the bounded
  history cache (lines 67-76), with the Python set modelled as a Finset;
* the per-cycle control flow of the main loop (lines 111-139), with the
  external persistence gateway and extraction capability modelled as
  oracles recording what was persisted and which extraction calls ran;
* the post-cycle logging/timing step (lines 149-163), with Python local
  variable semantics made explicit: the local variable elapsed is
  unassigned on the first loop iteration when lines 150/152 read it;
* exception routing of the loop (KeyboardInterrupt handler at lines
  141-143, the try/finally browser shutdown at lines 96-166) and the
  per-topic page lifecycle (lines 122-131).

Wall-clock durations are modelled as rationals, Python ints as ℤ.
-/

namespace TopicStreams

/-- Modelled from the spec: common/model.py (the NewsEntry record) is not
under src/.  Per spec §3, a NewsEntry carries topic (string), title
(string), source (string or absent), plus additional opaque payload
fields that do not participate in dedup or scheduling; the payload is
collapsed into one field here. -/
structure NewsEntry where
  topic : String
  title : String
  source : Option String
  payload : String
  deriving DecidableEq, Repr

/-- Modelled from the spec: ScraperLogEntry (spec §3) is an opaque
diagnostic record forwarded verbatim; modelled as a string. -/
abbrev ScraperLog := String

/-- Dedup signature type: the triple (topic, title, source)
(src/scraper/main.py, line 50 and lines 59, 75). -/
abbrev Sig := String × String × Option String

/-- Signature of an entry, src/scraper/main.py line 59 and line 75:
(entry.topic, entry.title, entry.source). -/
def sig (e : NewsEntry) : Sig := (e.topic, e.title, e.source)

/-- Bound on the history cache, src/scraper/main.py line 50. -/
def _MAX_SEEN_ENTRIES : ℕ := 25000

/-- Loop body of _dedup_entries (src/scraper/main.py lines 56-63): walk the
entries keeping those whose signature is in neither the in-batch set seen
nor the history cache hist; kept signatures are added to seen. -/
def dedupAux (hist : Finset Sig) (seen : Finset Sig) :
    List NewsEntry → List NewsEntry
  | [] => []
  | e :: es =>
    if sig e ∈ seen ∨ sig e ∈ hist then
      dedupAux hist seen es
    else
      e :: dedupAux hist (insert (sig e) seen) es

/-- The function _dedup_entries (src/scraper/main.py lines 53-64); the
module-global _seen_entries is passed explicitly as hist, and the in-batch
set seen starts empty (line 57). -/
def _dedup_entries (hist : Finset Sig) (entries : List NewsEntry) :
    List NewsEntry :=
  dedupAux hist ∅ entries

/-- Signatures of a batch as a finite set. -/
def sigFinset (entries : List NewsEntry) : Finset Sig :=
  (entries.map sig).toFinset

/-- The function _add_to_seen_entries (src/scraper/main.py lines 67-76):
if the cache size strictly exceeds _MAX_SEEN_ENTRIES the cache is cleared
(lines 71-73), then every entry signature of the batch is added
(lines 75-76). -/
def _add_to_seen_entries (hist : Finset Sig) (entries : List NewsEntry) :
    Finset Sig :=
  let base := if _MAX_SEEN_ENTRIES < hist.card then (∅ : Finset Sig) else hist
  entries.foldl (fun acc e => insert (sig e) acc) base

/-! ### Configuration (src/common/settings.py) -/

/-- Default of Settings.scrape_interval (src/common/settings.py line 30). -/
def scrape_interval_default : ℤ := 60

/-- Default of Settings.max_pages (src/common/settings.py line 38). -/
def max_pages_default : ℤ := 1

/-- Validation of Settings.max_pages (src/common/settings.py lines 37-45):
pydantic rejects any value below the ge=1 bound. -/
def validate_max_pages (v : ℤ) : Except Unit ℤ :=
  if 1 ≤ v then .ok v else .error ()

/-! ### Post-cycle logging and timing (src/scraper/main.py lines 149-163) -/

/-- Python exceptions distinguished by the model. -/
inductive PyExc where
  | keyboardInterrupt
  | unboundLocalError
  | storageError
  | scrapeError
  | stealthError
  deriving DecidableEq, Repr

/-- Result of the timing step: wait a number of seconds, or start the next
cycle immediately with the exceeded-interval notice logged. -/
inductive TimingResult where
  | wait (seconds : ℚ)
  | immediate
  deriving DecidableEq, Repr

/-- Lines 155-163 of src/scraper/main.py: sleep_time is
max(0, scrape_interval - elapsed); sleep if positive, otherwise log the
exceeded-interval notice and continue immediately. -/
def timingStep (interval : ℤ) (elapsed : ℚ) : TimingResult :=
  let sleepTime : ℚ := max 0 ((interval : ℚ) - elapsed)
  if 0 < sleepTime then .wait sleepTime else .immediate

/-- Lines 149-163 of src/scraper/main.py with Python local-variable
semantics: elapsedVar is the current binding of the local elapsed (none
when it has never been assigned, as on the first loop iteration).  Both
branches of the logging block at lines 149-152 interpolate elapsed, so an
unassigned elapsed raises UnboundLocalError there; only afterwards does
line 154 assign elapsed := now - cycleStart and the timing step run. -/
def postCycle (elapsedVar : Option ℚ) (cycleSuccess : Bool) (interval : ℤ)
    (now cycleStart : ℚ) : Except PyExc TimingResult :=
  match cycleSuccess, elapsedVar with
  | _, none => .error .unboundLocalError
  | _, some _ =>
    let elapsed := now - cycleStart
    .ok (timingStep interval elapsed)

/-- Outcome of the try/except handlers of the cycle body, lines 113-147:
KeyboardInterrupt breaks the loop (lines 141-143); any other exception is
logged and falls through to the post-cycle code with cycle_success still
False (lines 145-147); normal completion falls through with cycle_success
True (line 139). -/
inductive LoopControl where
  | toPostCycle (cycleSuccess : Bool)
  | breakLoop
  deriving DecidableEq, Repr

/-- Exception routing of the cycle body's except clauses
(src/scraper/main.py lines 141-147). -/
def handleBody : Except PyExc Unit → LoopControl
  | .ok () => .toPostCycle true
  | .error .keyboardInterrupt => .breakLoop
  | .error _ => .toPostCycle false

/-! ### One cycle of the main loop (src/scraper/main.py lines 113-139)

Modelled from the spec: the Persistence Gateway (common/database.py) and
the Extraction Capability (src/scraper/scraper.py) are not under src/.
Per spec §6 they expose getTopics, insertNewsEntries, insertScraperLogs
and scrape, each of which may fail; they are modelled as an oracle record
fixing each call's outcome, and the model records what was persisted and
which extraction calls were made. -/

/-- Oracle for the external collaborators of one cycle (spec §6): the
topic fetch result, each topic's extraction result, and whether the two
gateway inserts succeed (an insert is modelled as atomic: on failure it
persists nothing, per the StorageError contract of spec §6). -/
structure Gateway where
  getTopics : Except Unit (List String)
  scrape : String → Except Unit (List NewsEntry × List ScraperLog)
  insertNewsOk : Bool
  insertLogsOk : Bool

/-- Result of one cycle: classification, the history cache afterwards,
the entries and logs the gateway persisted during the cycle, and the
trace of extraction calls (topic, page budget) in call order. -/
structure CycleResult where
  success : Bool
  cache : Finset Sig
  persisted : List NewsEntry
  persistedLogs : List ScraperLog
  calls : List (String × ℤ)
  deriving DecidableEq

/-- The per-topic loop of lines 119-131: one extraction call per topic in
order, accumulating entries and logs; the first failing call aborts the
iteration (no per-topic isolation) and any exception propagates to the
cycle's except clauses.  Returns the trace of calls made together with
the accumulated results or the error. -/
def scrapeAll (gw : Gateway) (maxPages : ℤ) :
    List String → List (String × ℤ) × Except Unit (List NewsEntry × List ScraperLog)
  | [] => ([], .ok ([], []))
  | t :: ts =>
    match gw.scrape t with
    | .error e => ([(t, maxPages)], .error e)
    | .ok (es, ls) =>
      let rest := scrapeAll gw maxPages ts
      ((t, maxPages) :: rest.1,
        match rest.2 with
        | .error e => .error e
        | .ok (es2, ls2) => .ok (es ++ es2, ls ++ ls2))

/-- One cycle body with its except clauses (src/scraper/main.py lines
113-147, KeyboardInterrupt aside): fetch topics (line 114), shuffle
(line 115, the random permutation passed as the oracle shf), scrape each
topic (lines 119-131), dedup (line 133), insert entries (line 136), add
to the seen cache (line 137), insert logs (line 138), and set
cycle_success (line 139).  Any failure ends the cycle with success False
and leaves every later step unexecuted. -/
def runCycle (gw : Gateway) (shf : List String → List String) (maxPages : ℤ)
    (cache : Finset Sig) : CycleResult :=
  match gw.getTopics with
  | .error _ => ⟨false, cache, [], [], []⟩
  | .ok topics0 =>
    let topics := shf topics0
    let scraped := scrapeAll gw maxPages topics
    match scraped.2 with
    | .error _ => ⟨false, cache, [], [], scraped.1⟩
    | .ok (allEntries, allLogs) =>
      let newEntries := _dedup_entries cache allEntries
      if gw.insertNewsOk then
        let cache2 := _add_to_seen_entries cache newEntries
        if gw.insertLogsOk then
          ⟨true, cache2, newEntries, allLogs, scraped.1⟩
        else
          ⟨false, cache2, newEntries, [], scraped.1⟩
      else
        ⟨false, cache, [], [], scraped.1⟩

/-! ### Interrupt routing and shutdown (src/scraper/main.py lines 96-166) -/

/-- Where an operator interrupt (KeyboardInterrupt) is raised during the
Running state: inside the cycle body (the try at lines 113-139), or in
the post-cycle code and inter-cycle sleep (lines 149-163, outside any
except clause of the loop). -/
inductive RunPoint where
  | cycleBody
  | interCycleSleep
  deriving DecidableEq, Repr

/-- How the while loop is left when a KeyboardInterrupt is raised at the
given point: whether control reached the timing/sleep code, and which
exception (if any) propagates out of the loop.  An interrupt inside the
try is caught at lines 141-143 and breaks the loop before lines 149-163;
an interrupt at lines 149-163 has no handler and propagates. -/
def loopExit : RunPoint → Bool × Option PyExc
  | .cycleBody => (false, none)
  | .interCycleSleep => (true, some .keyboardInterrupt)

/-- Outcome of the whole process on an interrupt: whether browser.close()
ran, whether the timing/sleep code ran, and which exception escapes
main. -/
structure ExitOutcome where
  browserClosed : Bool
  ranTiming : Bool
  surfaced : Option PyExc
  deriving DecidableEq, Repr

/-- The try/finally of lines 96-166: browser.close() at line 166 runs both
on a break and while an exception propagates; a propagating exception
still escapes main afterwards. -/
def mainShutdown (p : RunPoint) : ExitOutcome :=
  match loopExit p with
  | (ran, exc) => { browserClosed := true, ranTiming := ran, surfaced := exc }

/-! ### Per-topic page lifecycle (src/scraper/main.py lines 122-131) -/

/-- Outcome of one topic's scrape: whether page.close() ran, and the
extraction result or the exception that propagated. -/
structure TopicPageResult where
  pageClosed : Bool
  result : Except PyExc (List NewsEntry × List ScraperLog)

/-- Lines 122-131: the page is created (line 122), stealth patching is
applied at line 123 before the try, scrape_news runs inside the try
(lines 124-129), and the finally at lines 130-131 closes the page.  An
exception from stealth patching is raised before the try is entered, so
the finally does not run and the page stays open; any exception from the
scrape is raised inside the try, so the page is closed. -/
def processTopicPage (stealthResult : Except PyExc Unit)
    (scrapeResult : Except PyExc (List NewsEntry × List ScraperLog)) :
    TopicPageResult :=
  match stealthResult with
  | .error e => ⟨false, .error e⟩
  | .ok () =>
    match scrapeResult with
    | .error e => ⟨true, .error e⟩
    | .ok r => ⟨true, .ok r⟩

/-! ### Helper lemmas about the dedup loop -/

theorem dedupAux_sublist (hist : Finset Sig) (l : List NewsEntry) :
    ∀ seen, List.Sublist (dedupAux hist seen l) l := by
  induction l with
  | nil => intro seen; simp [dedupAux]
  | cons e es ih =>
    intro seen
    by_cases hc : sig e ∈ seen ∨ sig e ∈ hist
    · simp only [dedupAux, if_pos hc]
      exact List.Sublist.cons e (ih seen)
    · simp only [dedupAux, if_neg hc]
      exact List.Sublist.cons₂ e (ih (insert (sig e) seen))

theorem dedupAux_mem (hist : Finset Sig) (l : List NewsEntry) :
    ∀ seen e', e' ∈ dedupAux hist seen l →
      e' ∈ l ∧ sig e' ∉ hist ∧ sig e' ∉ seen := by
  induction l with
  | nil => intro seen e' h; simp [dedupAux] at h
  | cons e es ih =>
    intro seen e' h
    by_cases hc : sig e ∈ seen ∨ sig e ∈ hist
    · simp only [dedupAux, if_pos hc] at h
      obtain ⟨h1, h2, h3⟩ := ih seen e' h
      exact ⟨List.mem_cons_of_mem e h1, h2, h3⟩
    · simp only [dedupAux, if_neg hc] at h
      push_neg at hc
      rcases List.mem_cons.mp h with rfl | h'
      · exact ⟨List.mem_cons_self e' es, hc.2, hc.1⟩
      · obtain ⟨h1, h2, h3⟩ := ih (insert (sig e) seen) e' h'
        exact ⟨List.mem_cons_of_mem e h1, h2,
          fun hmem => h3 (Finset.mem_insert_of_mem hmem)⟩

theorem dedupAux_sigs_nodup (hist : Finset Sig) (l : List NewsEntry) :
    ∀ seen, ((dedupAux hist seen l).map sig).Nodup := by
  induction l with
  | nil => intro seen; simp [dedupAux]
  | cons e es ih =>
    intro seen
    by_cases hc : sig e ∈ seen ∨ sig e ∈ hist
    · simp only [dedupAux, if_pos hc]
      exact ih seen
    · simp only [dedupAux, if_neg hc, List.map_cons, List.nodup_cons]
      refine ⟨?_, ih (insert (sig e) seen)⟩
      intro hmem
      obtain ⟨e', he', hsig⟩ := List.mem_map.mp hmem
      apply (dedupAux_mem hist es (insert (sig e) seen) e' he').2.2
      rw [hsig]
      exact Finset.mem_insert_self (sig e) seen

theorem dedupAux_complete (hist : Finset Sig) (l : List NewsEntry) :
    ∀ seen e, e ∈ l → sig e ∉ hist → sig e ∉ seen →
      ∃ e', e' ∈ dedupAux hist seen l ∧ sig e' = sig e := by
  induction l with
  | nil => intro seen e h; simp at h
  | cons a es ih =>
    intro seen e he hh hs
    by_cases hc : sig a ∈ seen ∨ sig a ∈ hist
    · simp only [dedupAux, if_pos hc]
      rcases List.mem_cons.mp he with rfl | he'
      · exact absurd hc (by tauto)
      · exact ih seen e he' hh hs
    · simp only [dedupAux, if_neg hc]
      by_cases heq : sig e = sig a
      · exact ⟨a, List.mem_cons_self a _, heq.symm⟩
      · rcases List.mem_cons.mp he with rfl | he'
        · exact absurd rfl heq
        · obtain ⟨e', h1, h2⟩ := ih (insert (sig a) seen) e he' hh (by
            intro hmem
            rcases Finset.mem_insert.mp hmem with h1 | h1
            · exact heq h1
            · exact hs h1)
          exact ⟨e', List.mem_cons_of_mem a h1, h2⟩

theorem dedupAux_first (hist : Finset Sig) (l : List NewsEntry) :
    ∀ seen e', e' ∈ dedupAux hist seen l →
      l.find? (fun x => decide (sig x = sig e')) = some e' := by
  induction l with
  | nil => intro seen e' h; simp [dedupAux] at h
  | cons a es ih =>
    intro seen e' h
    by_cases hc : sig a ∈ seen ∨ sig a ∈ hist
    · simp only [dedupAux, if_pos hc] at h
      have hm := dedupAux_mem hist es seen e' h
      have hne : ¬ sig a = sig e' := by
        intro heq
        rcases hc with h1 | h1
        · exact hm.2.2 (by rw [← heq]; exact h1)
        · exact hm.2.1 (by rw [← heq]; exact h1)
      rw [List.find?_cons_of_neg _ (by simpa using hne)]
      exact ih seen e' h
    · simp only [dedupAux, if_neg hc] at h
      rcases List.mem_cons.mp h with rfl | h'
      · exact List.find?_cons_of_pos _ (by simp)
      · have hm := dedupAux_mem hist es (insert (sig a) seen) e' h'
        have hne : ¬ sig a = sig e' := by
          intro heq
          apply hm.2.2
          rw [← heq]
          exact Finset.mem_insert_self (sig a) seen
        rw [List.find?_cons_of_neg _ (by simpa using hne)]
        exact ih (insert (sig a) seen) e' h'

theorem dedupAux_fixed (hist : Finset Sig) (l : List NewsEntry) :
    ∀ seen, (∀ e ∈ l, sig e ∉ hist ∧ sig e ∉ seen) → (l.map sig).Nodup →
      dedupAux hist seen l = l := by
  induction l with
  | nil => intro seen _ _; rfl
  | cons a es ih =>
    intro seen h hnd
    have ha := h a (List.mem_cons_self a es)
    have hc : ¬ (sig a ∈ seen ∨ sig a ∈ hist) := by tauto
    have hnd' : (sig a ∉ es.map sig) ∧ (es.map sig).Nodup := by
      simpa [List.nodup_cons] using hnd
    simp only [dedupAux, if_neg hc]
    congr 1
    apply ih
    · intro e he
      refine ⟨(h e (List.mem_cons_of_mem a he)).1, ?_⟩
      intro hmem
      rcases Finset.mem_insert.mp hmem with h1 | h1
      · exact hnd'.1 (List.mem_map.mpr ⟨e, he, h1⟩)
      · exact (h e (List.mem_cons_of_mem a he)).2 h1
    · exact hnd'.2

/-! ### Helper lemmas about the seen-entries cache -/

theorem foldl_insert_sig (l : List NewsEntry) :
    ∀ c : Finset Sig,
      l.foldl (fun acc e => insert (sig e) acc) c = c ∪ sigFinset l := by
  induction l with
  | nil => intro c; simp [sigFinset]
  | cons a es ih =>
    intro c
    simp only [List.foldl_cons]
    rw [ih (insert (sig a) c)]
    ext x
    simp only [sigFinset, List.map_cons, List.toFinset_cons, Finset.mem_union,
      Finset.mem_insert]
    tauto

/-- Tag string used to build concrete caches of a given size. -/
def natTag (n : ℕ) : String := String.mk (List.replicate n 'a')

theorem natTag_injective : Function.Injective natTag := by
  intro a b h
  have h2 : List.replicate a 'a' = List.replicate b 'a' := congrArg String.data h
  have h3 := congrArg List.length h2
  simpa using h3

/-- Concrete signature with the given tag length. -/
def sigTag (n : ℕ) : Sig := (natTag n, "", none)

theorem sigTag_injective : Function.Injective sigTag := by
  intro a b h
  apply natTag_injective
  exact congrArg (fun s : Sig => s.1) h

/-- Concrete history cache of exactly n distinct signatures. -/
def bigCache (n : ℕ) : Finset Sig := (Finset.range n).image sigTag

theorem bigCache_card (n : ℕ) : (bigCache n).card = n := by
  rw [bigCache, Finset.card_image_of_injective _ sigTag_injective,
    Finset.card_range]

/-! ### Concrete entries used by witnesses and counterexamples -/

/-- Concrete entry (t1, A, s1) with payload p1. -/
def ea : NewsEntry := ⟨"t1", "A", some "s1", "p1"⟩

/-- Concrete entry equal to ea in (topic, title, source) but with a
different payload. -/
def eb : NewsEntry := ⟨"t1", "A", some "s1", "p2"⟩

/-- Concrete entry (t2, B, s2). -/
def ec : NewsEntry := ⟨"t2", "B", some "s2", "p1"⟩

/-! ### Claim theorems -/

/-- C3: _dedup_entries returns, in the original input order, exactly the
entries whose (topic, title, source) signature is neither in the history
cache nor equal to the signature of an earlier entry of the batch (first
occurrence wins): the output is an order-preserving sublist, its
signatures avoid the cache and are pairwise distinct, every input
signature absent from the cache is represented, each kept entry is the
first input entry bearing its signature, and an entry differing from a
signature-equal one only in payload is dropped as a duplicate. -/
theorem dedup_entries_spec (hist : Finset Sig) (l : List NewsEntry) :
    List.Sublist (_dedup_entries hist l) l
    ∧ (∀ e ∈ _dedup_entries hist l, sig e ∉ hist)
    ∧ ((_dedup_entries hist l).map sig).Nodup
    ∧ (∀ e ∈ l, sig e ∉ hist →
        ∃ e', e' ∈ _dedup_entries hist l ∧ sig e' = sig e)
    ∧ (∀ e' ∈ _dedup_entries hist l,
        l.find? (fun x => decide (sig x = sig e')) = some e')
    ∧ (∀ e e2 : NewsEntry, ∀ l2 : List NewsEntry,
        e.topic = e2.topic → e.title = e2.title → e.source = e2.source →
        _dedup_entries hist (e :: e2 :: l2) = _dedup_entries hist (e :: l2)) := by
  refine ⟨dedupAux_sublist hist l ∅,
    fun e he => (dedupAux_mem hist l ∅ e he).2.1,
    dedupAux_sigs_nodup hist l ∅,
    fun e he hh => dedupAux_complete hist l ∅ e he hh (Finset.not_mem_empty _),
    dedupAux_first hist l ∅,
    ?_⟩
  intro e e2 l2 h1 h2 h3
  have hsig : sig e2 = sig e := by
    simp [sig, h1, h2, h3]
  show dedupAux hist ∅ (e :: e2 :: l2) = dedupAux hist ∅ (e :: l2)
  by_cases hc : sig e ∈ (∅ : Finset Sig) ∨ sig e ∈ hist
  · have hc2 : sig e2 ∈ (∅ : Finset Sig) ∨ sig e2 ∈ hist := by rw [hsig]; exact hc
    simp only [dedupAux, if_pos hc, if_pos hc2]
  · have hc2 : sig e2 ∈ insert (sig e) (∅ : Finset Sig) ∨ sig e2 ∈ hist :=
      Or.inl (by rw [hsig]; exact Finset.mem_insert_self _ _)
    simp only [dedupAux, if_neg hc, if_pos hc2]

/-- C3 witness: on the spec §8 example (with the middle entry differing
from the first only in payload) and an empty history cache, the theorem
yields the order-preserving result keeping the first occurrence. -/
theorem dedup_entries_spec_witness :
    List.Sublist (_dedup_entries ∅ [ea, eb, ec]) [ea, eb, ec]
    ∧ sig ea ∉ (∅ : Finset Sig)
    ∧ [ea, eb, ec].find? (fun x => decide (sig x = sig ea)) = some ea
    ∧ _dedup_entries ∅ [ea, eb, ec] = _dedup_entries ∅ [ea, ec]
    ∧ _dedup_entries ∅ [ea, eb, ec] = [ea, ec] := by
  obtain ⟨h1, h2, h3, h4, h5, h6⟩ := dedup_entries_spec ∅ [ea, eb, ec]
  exact ⟨h1, h2 ea (by decide), h5 ea (by decide), h6 ea eb [ec] rfl rfl rfl,
    by decide⟩

/-- C9: _dedup_entries is idempotent with respect to an unchanged history
cache: applied to its own output it returns it unchanged, the output's
signatures are pairwise distinct and all absent from the cache.  The
embedding is pure — the cache is taken by value and no updated cache is
returned, matching the source, which only reads _seen_entries and builds
a fresh result list. -/
theorem dedup_entries_idempotent (hist : Finset Sig) (l : List NewsEntry) :
    _dedup_entries hist (_dedup_entries hist l) = _dedup_entries hist l
    ∧ ((_dedup_entries hist l).map sig).Nodup
    ∧ (∀ e ∈ _dedup_entries hist l, sig e ∉ hist) := by
  refine ⟨?_, dedupAux_sigs_nodup hist l ∅,
    fun e he => (dedupAux_mem hist l ∅ e he).2.1⟩
  show dedupAux hist ∅ (_dedup_entries hist l) = _dedup_entries hist l
  apply dedupAux_fixed
  · intro e he
    exact ⟨(dedupAux_mem hist l ∅ e he).2.1, Finset.not_mem_empty _⟩
  · exact dedupAux_sigs_nodup hist l ∅

/-- C9 witness: the theorem applied at an empty cache and the batch
[ea, eb, ec], with the not-in-cache conjunct instantiated at ea. -/
theorem dedup_entries_idempotent_witness :
    _dedup_entries ∅ (_dedup_entries ∅ [ea, eb, ec]) = _dedup_entries ∅ [ea, eb, ec]
    ∧ sig ea ∉ (∅ : Finset Sig) := by
  obtain ⟨h1, h2, h3⟩ := dedup_entries_idempotent ∅ [ea, eb, ec]
  exact ⟨h1, h3 ea (by decide)⟩

/-- C4: _add_to_seen_entries equals the union of the batch signatures
with the cache — cleared first exactly when the entry size strictly
exceeds 25000.  When cleared, the result holds exactly the batch
signatures, so for a batch produced by _dedup_entries its size equals the
batch length; when not cleared, no element is removed and every batch
signature is added. -/
theorem add_to_seen_entries_spec (hist : Finset Sig)
    (entries l : List NewsEntry) :
    _add_to_seen_entries hist entries
      = (if _MAX_SEEN_ENTRIES < hist.card then (∅ : Finset Sig) else hist)
        ∪ sigFinset entries
    ∧ (_MAX_SEEN_ENTRIES < hist.card →
        (_add_to_seen_entries hist (_dedup_entries hist l)).card
          = (_dedup_entries hist l).length)
    ∧ (hist.card ≤ _MAX_SEEN_ENTRIES →
        hist ⊆ _add_to_seen_entries hist entries
        ∧ ∀ e ∈ entries, sig e ∈ _add_to_seen_entries hist entries) := by
  have hbase : ∀ es : List NewsEntry, _add_to_seen_entries hist es
      = (if _MAX_SEEN_ENTRIES < hist.card then (∅ : Finset Sig) else hist)
        ∪ sigFinset es := by
    intro es
    simp only [_add_to_seen_entries]
    exact foldl_insert_sig es _
  refine ⟨hbase entries, ?_, ?_⟩
  · intro h
    rw [hbase, if_pos h, Finset.empty_union, sigFinset,
      List.toFinset_card_of_nodup
        (show ((_dedup_entries hist l).map sig).Nodup from
          dedupAux_sigs_nodup hist l ∅),
      List.length_map]
  · intro h
    have hlt : ¬ _MAX_SEEN_ENTRIES < hist.card := not_lt.mpr h
    rw [hbase, if_neg hlt]
    exact ⟨Finset.subset_union_left, fun e he =>
      Finset.mem_union_right _ (List.mem_toFinset.mpr (List.mem_map_of_mem sig he))⟩

/-- C4 witness: with a concrete cache of 25001 distinct signatures the
clear fires and the resulting size equals the filtered batch's length;
with the empty cache nothing is removed and the batch signature is
added. -/
theorem add_to_seen_entries_spec_witness :
    _MAX_SEEN_ENTRIES < (bigCache 25001).card
    ∧ (_add_to_seen_entries (bigCache 25001)
        (_dedup_entries (bigCache 25001) [ea])).card
      = (_dedup_entries (bigCache 25001) [ea]).length
    ∧ (∅ : Finset Sig).card ≤ _MAX_SEEN_ENTRIES
    ∧ (∅ : Finset Sig) ⊆ _add_to_seen_entries ∅ [ea]
    ∧ sig ea ∈ _add_to_seen_entries ∅ [ea] := by
  have hcard : _MAX_SEEN_ENTRIES < (bigCache 25001).card := by
    rw [bigCache_card]
    norm_num [_MAX_SEEN_ENTRIES]
  have hle : (∅ : Finset Sig).card ≤ _MAX_SEEN_ENTRIES := by
    simp
  obtain ⟨-, h2, -⟩ := add_to_seen_entries_spec (bigCache 25001) [ea] [ea]
  obtain ⟨-, -, h3⟩ := add_to_seen_entries_spec (∅ : Finset Sig) [ea] []
  obtain ⟨h3a, h3b⟩ := h3 hle
  exact ⟨hcard, h2 hcard, hle, h3a, h3b ea (by simp)⟩

/-- C10: the clearing test of _add_to_seen_entries is strict — a cache of
exactly 25000 signatures is not cleared (so the cache can reach 25000
plus the batch size before any reset), while a cache above 25000 is
cleared even for an empty batch, leaving it empty. -/
theorem add_to_seen_entries_strict (hist : Finset Sig)
    (entries : List NewsEntry) :
    (hist.card = _MAX_SEEN_ENTRIES →
      _add_to_seen_entries hist entries = hist ∪ sigFinset entries)
    ∧ (hist.card = _MAX_SEEN_ENTRIES →
      (_add_to_seen_entries hist entries).card
        ≤ _MAX_SEEN_ENTRIES + entries.length)
    ∧ (_MAX_SEEN_ENTRIES < hist.card → _add_to_seen_entries hist [] = ∅) := by
  have hbase : ∀ es : List NewsEntry, _add_to_seen_entries hist es
      = (if _MAX_SEEN_ENTRIES < hist.card then (∅ : Finset Sig) else hist)
        ∪ sigFinset es := by
    intro es
    simp only [_add_to_seen_entries]
    exact foldl_insert_sig es _
  have heq : ∀ h : hist.card = _MAX_SEEN_ENTRIES,
      _add_to_seen_entries hist entries = hist ∪ sigFinset entries := by
    intro h
    rw [hbase, if_neg (by rw [h]; exact lt_irrefl _)]
  refine ⟨heq, ?_, ?_⟩
  · intro h
    rw [heq h]
    refine le_trans (Finset.card_union_le hist (sigFinset entries)) ?_
    have : (sigFinset entries).card ≤ entries.length := by
      simpa [sigFinset] using List.toFinset_card_le (entries.map sig)
    omega
  · intro h
    rw [hbase, if_pos h]
    simp [sigFinset]

/-- C10 witness: a concrete cache of exactly 25000 signatures is kept and
merely extended by the batch, and a concrete cache of 25001 signatures is
wiped by a call with the empty batch. -/
theorem add_to_seen_entries_strict_witness :
    (bigCache 25000).card = _MAX_SEEN_ENTRIES
    ∧ _add_to_seen_entries (bigCache 25000) [ea]
        = bigCache 25000 ∪ sigFinset [ea]
    ∧ _MAX_SEEN_ENTRIES < (bigCache 25001).card
    ∧ _add_to_seen_entries (bigCache 25001) [] = ∅ := by
  have h1 : (bigCache 25000).card = _MAX_SEEN_ENTRIES := by
    rw [bigCache_card]
    rfl
  have h2 : _MAX_SEEN_ENTRIES < (bigCache 25001).card := by
    rw [bigCache_card]
    norm_num [_MAX_SEEN_ENTRIES]
  obtain ⟨ha, -, -⟩ := add_to_seen_entries_strict (bigCache 25000) [ea]
  obtain ⟨-, -, hb⟩ := add_to_seen_entries_strict (bigCache 25001) [ea]
  exact ⟨h1, ha h1, h2, hb h2⟩

/-- C1: an ordinary exception of the cycle body is caught and the cycle
classified Failed, as claimed — but the loop does not then survive the
logging/sleep step: on the first cycle the local variable elapsed is
still unassigned when lines 150/152 read it (it is assigned only at line
154), so the post-try block itself raises UnboundLocalError, regardless
of the cycle's outcome and of the configured interval, and the process
terminates.  This refutes the claim's guarantee that the logging and
sleep computation raise no exception on any cycle. -/
theorem first_cycle_logging_crashes (e : PyExc) (cycleSuccess : Bool)
    (interval : ℤ) (now start : ℚ) (hne : e ≠ PyExc.keyboardInterrupt) :
    handleBody (.error e) = LoopControl.toPostCycle false
    ∧ postCycle none cycleSuccess interval now start
        = Except.error PyExc.unboundLocalError := by
  constructor
  · cases e with
    | keyboardInterrupt => exact absurd rfl hne
    | unboundLocalError => rfl
    | storageError => rfl
    | scrapeError => rfl
    | stealthError => rfl
  · cases cycleSuccess <;> rfl

/-- C1 witness: a first cycle that fails with a storage error is caught
and classified Failed, and the following logging/sleep block raises
UnboundLocalError. -/
theorem first_cycle_logging_crashes_witness :
    PyExc.storageError ≠ PyExc.keyboardInterrupt
    ∧ handleBody (.error PyExc.storageError) = LoopControl.toPostCycle false
    ∧ postCycle none false 60 (25 / 2) 0
        = Except.error PyExc.unboundLocalError := by
  have h := first_cycle_logging_crashes PyExc.storageError false 60 (25 / 2) 0
    (by decide)
  exact ⟨by decide, h.1, h.2⟩

/-- C5: the timing computation written at lines 155-163 does compute
max(0, interval - elapsed) — 48s of delay for interval 60 and elapsed 12,
immediate start for elapsed 65 or a non-positive interval — but the loop
never reaches it: the logging block preceding it (lines 149-152) reads
the not-yet-assigned local elapsed and raises UnboundLocalError on the
first completed cycle, so no inter-cycle delay ever takes place and no
next cycle ever starts. -/
theorem timing_step_spec :
    postCycle none true 60 12 0 = Except.error PyExc.unboundLocalError
    ∧ timingStep 60 12 = TimingResult.wait 48
    ∧ timingStep 60 65 = TimingResult.immediate
    ∧ timingStep 0 5 = TimingResult.immediate
    ∧ timingStep (-3) 5 = TimingResult.immediate := by
  refine ⟨rfl, ?_, ?_, ?_, ?_⟩ <;> norm_num [timingStep]

/-- C6 counterexample: a KeyboardInterrupt raised during the inter-cycle
sleep (line 158) is outside the loop's except clauses, so — contrary to
the claim that no exception is ever surfaced — it propagates out of main
after browser.close() runs. -/
theorem interrupt_during_sleep_surfaces :
    (mainShutdown RunPoint.interCycleSleep).surfaced
      = some PyExc.keyboardInterrupt
    ∧ (mainShutdown RunPoint.interCycleSleep).surfaced ≠ none := by
  exact ⟨rfl, by simp [mainShutdown, loopExit]⟩

/-- C6 amended: an operator interrupt raised inside the cycle body exits
the loop without running the timing/sleep step, releases the browser, and
surfaces no exception; an interrupt raised during the post-cycle code or
inter-cycle sleep still releases the browser (via the finally), but the
KeyboardInterrupt propagates out of main. -/
theorem interrupt_shutdown_spec :
    mainShutdown RunPoint.cycleBody
      = { browserClosed := true, ranTiming := false, surfaced := none }
    ∧ mainShutdown RunPoint.interCycleSleep
      = { browserClosed := true, ranTiming := true,
          surfaced := some PyExc.keyboardInterrupt } :=
  ⟨rfl, rfl⟩

/-- C7 counterexample: an exception raised by stealth patching (line 123)
occurs before the try/finally of lines 124-131 is entered, so page.close()
never runs and the page is left open, contrary to the claim that the page
is closed on every exit path including stealth patching. -/
theorem stealth_failure_leaks_page :
    (processTopicPage (.error PyExc.stealthError)
      (.ok ([], []))).pageClosed = false := rfl

/-- C7 amended: the page created for a topic is closed on successful
extraction and on any exception raised inside the try (in particular by
the extraction call), but an exception raised by stealth patching —
between page creation and the try — leaves the page open. -/
theorem page_closed_on_try_paths
    (r : Except PyExc (List NewsEntry × List ScraperLog)) (e : PyExc) :
    (processTopicPage (.ok ()) r).pageClosed = true
    ∧ (processTopicPage (.error e) r).pageClosed = false := by
  cases r <;> exact ⟨rfl, rfl⟩

/-- Gateway whose scraper-log insert fails after the news-entry insert
succeeded. -/
def gwLogsFail : Gateway :=
  { getTopics := .ok ["t1"]
    scrape := fun _ => .ok ([ea], ["log1"])
    insertNewsOk := true
    insertLogsOk := false }

/-- C2 counterexample: a cycle whose only failure is in the scraper-log
insert (line 138) is classified Failed, yet the cycle's entries were
already persisted by line 136 and the history cache already mutated by
line 137 — the claimed discard-on-failure does not hold at that stage. -/
theorem cycle_failure_not_atomic_at_log_insert :
    (runCycle gwLogsFail id 1 ∅).success = false
    ∧ (runCycle gwLogsFail id 1 ∅).persisted = [ea]
    ∧ (runCycle gwLogsFail id 1 ∅).cache ≠ (∅ : Finset Sig) := by
  refine ⟨rfl, rfl, ?_⟩
  have : (runCycle gwLogsFail id 1 ∅).cache = {sig ea} := by decide
  rw [this]
  simp

/-- C2 amended: for every cycle that ends in CycleFailure due to an
exception at any stage strictly before the scraper-log insert — topic
fetch, iteration/extraction, or the news-entry insert — nothing is
persisted and the history cache is unchanged; only a failure in the
scraper-log insert itself leaves that cycle's entries persisted and the
cache mutated. -/
theorem cycle_failure_atomic_before_log_insert (gw : Gateway)
    (shf : List String → List String) (mp : ℤ) (cache : Finset Sig)
    (hlogs : gw.insertLogsOk = true)
    (hfail : (runCycle gw shf mp cache).success = false) :
    (runCycle gw shf mp cache).persisted = []
    ∧ (runCycle gw shf mp cache).persistedLogs = []
    ∧ (runCycle gw shf mp cache).cache = cache := by
  simp only [runCycle] at hfail ⊢
  cases hgt : gw.getTopics with
  | error e =>
    simp only [hgt]
    refine ⟨by trivial, by trivial, by trivial⟩
  | ok topics0 =>
    simp only [hgt] at hfail ⊢
    cases hsc : (scrapeAll gw mp (shf topics0)).2 with
    | error e =>
      simp only [hsc]
      refine ⟨by trivial, by trivial, by trivial⟩
    | ok pr =>
      simp only [hsc] at hfail ⊢
      obtain ⟨allEntries, allLogs⟩ := pr
      cases hn : gw.insertNewsOk with
      | false =>
        simp only [hn, Bool.false_eq_true, if_false]
        refine ⟨by trivial, by trivial, by trivial⟩
      | true =>
        simp only [hn, hlogs, if_true] at hfail
        simp at hfail

/-- C2 witness: a cycle failing during extraction, with a working
scraper-log insert, persists nothing and leaves the cache untouched. -/
def gwScrapeFail : Gateway :=
  { getTopics := .ok ["t1"]
    scrape := fun _ => .error ()
    insertNewsOk := true
    insertLogsOk := true }

/-- C2 witness: the amended theorem applied to the concrete
extraction-failure gateway. -/
theorem cycle_failure_atomic_witness :
    gwScrapeFail.insertLogsOk = true
    ∧ (runCycle gwScrapeFail id 1 ∅).success = false
    ∧ (runCycle gwScrapeFail id 1 ∅).persisted = []
    ∧ (runCycle gwScrapeFail id 1 ∅).cache = (∅ : Finset Sig) := by
  have hs : (runCycle gwScrapeFail id 1 ∅).success = false := rfl
  obtain ⟨h1, h2, h3⟩ :=
    cycle_failure_atomic_before_log_insert gwScrapeFail id 1 ∅ rfl hs
  exact ⟨rfl, hs, h1, h3⟩

/-- When every extraction call succeeds, the per-topic loop makes exactly
one call per topic, in order, each with the configured page budget. -/
theorem scrapeAll_calls_of_ok (gw : Gateway) (mp : ℤ) (ts : List String)
    (h : ∀ t ∈ ts, ∃ r, gw.scrape t = .ok r) :
    (scrapeAll gw mp ts).1 = ts.map (fun t => (t, mp))
    ∧ ∃ r, (scrapeAll gw mp ts).2 = .ok r := by
  induction ts with
  | nil => exact ⟨rfl, ⟨([], []), rfl⟩⟩
  | cons t ts ih =>
    obtain ⟨⟨es, ls⟩, hr⟩ := h t (List.mem_cons_self t ts)
    obtain ⟨ih1, ⟨⟨es2, ls2⟩, ih2⟩⟩ :=
      ih (fun x hx => h x (List.mem_cons_of_mem t hx))
    refine ⟨?_, ?_⟩
    · simp only [scrapeAll, hr, List.map_cons]
      rw [ih1]
    · simp only [scrapeAll, hr, ih2]
      exact ⟨(es ++ es2, ls ++ ls2), rfl⟩

/-- Gateway with three topics whose second scrape raises, exercising the
no-per-topic-isolation fault policy of lines 119-131. -/
def gwMidFail : Gateway :=
  { getTopics := .ok ["t1", "t2", "t3"]
    scrape := fun t => if t = "t2" then .error () else .ok ([], [])
    insertNewsOk := true
    insertLogsOk := true }

/-- C8 counterexample: the claim quantifies over every cycle, but in a
cycle whose second of three scrapes raises, the iteration aborts
(lines 119-131 have no per-topic isolation): the third topic receives
zero extraction calls and the scraped order is a proper prefix of the
shuffled list, not a permutation of the fetched list. -/
theorem mid_cycle_scrape_failure_skips_topics :
    (runCycle gwMidFail id 1 ∅).calls = [("t1", 1), ("t2", 1)]
    ∧ (("t3", (1 : ℤ)) ∉ (runCycle gwMidFail id 1 ∅).calls)
    ∧ ¬ List.Perm ((runCycle gwMidFail id 1 ∅).calls.map Prod.fst)
        ["t1", "t2", "t3"]
    ∧ (runCycle gwMidFail id 1 ∅).success = false := by
  refine ⟨rfl, by decide, ?_, rfl⟩
  intro hperm
  exact absurd hperm.length_eq (by decide)

/-- C8 amended: each cycle fetches the current topic list and scrapes in
the order produced by the shuffle step applied to that list; in every
cycle whose topic fetch and extraction calls all succeed, that order is a
permutation of the fetched list and each topic receives exactly one
extraction call with the configured page budget (a mid-iteration
extraction failure instead aborts the iteration, leaving later topics
with no extraction call); the max_pages setting defaults to 1 and
validates exactly the values ≥ 1. -/
theorem cycle_topic_iteration (gw : Gateway) (shf : List String → List String)
    (mp : ℤ) (cache : Finset Sig) (topics0 : List String)
    (hget : gw.getTopics = .ok topics0)
    (hshf : List.Perm (shf topics0) topics0)
    (hok : ∀ t, ∃ r, gw.scrape t = .ok r) :
    (runCycle gw shf mp cache).calls = (shf topics0).map (fun t => (t, mp))
    ∧ List.Perm ((runCycle gw shf mp cache).calls.map Prod.fst) topics0
    ∧ (∀ t, ((runCycle gw shf mp cache).calls.map Prod.fst).count t
        = topics0.count t)
    ∧ validate_max_pages max_pages_default = .ok 1
    ∧ (∀ v : ℤ, validate_max_pages v = .ok v ↔ 1 ≤ v) := by
  obtain ⟨hcalls, ⟨⟨aE, aL⟩, hres⟩⟩ :=
    scrapeAll_calls_of_ok gw mp (shf topics0) (fun t _ => hok t)
  have hc : (runCycle gw shf mp cache).calls
      = (shf topics0).map (fun t => (t, mp)) := by
    simp only [runCycle, hget, hres]
    cases gw.insertNewsOk <;> cases gw.insertLogsOk <;> simp [hcalls]
  have hpair : ∀ l : List String, (l.map (fun t => (t, mp))).map Prod.fst = l := by
    intro l
    induction l with
    | nil => rfl
    | cons a l ih => simp only [List.map_cons, ih]
  have hmapfst : (runCycle gw shf mp cache).calls.map Prod.fst = shf topics0 := by
    rw [hc]
    exact hpair (shf topics0)
  refine ⟨hc, ?_, ?_, ?_, ?_⟩
  · rw [hmapfst]
    exact hshf
  · intro t
    rw [hmapfst]
    exact hshf.count_eq t
  · rfl
  · intro v
    by_cases h : 1 ≤ v <;> simp [validate_max_pages, h]

/-- C8 witness gateway with two topics and always-succeeding scrapes. -/
def gwTwo : Gateway :=
  { getTopics := .ok ["t1", "t2"]
    scrape := fun _ => .ok ([], [])
    insertNewsOk := true
    insertLogsOk := true }

/-- C8 witness: with the reversing permutation as the shuffle outcome,
the cycle's two extraction calls run in the shuffled order with page
budget 1. -/
theorem cycle_topic_iteration_witness :
    gwTwo.getTopics = .ok ["t1", "t2"]
    ∧ List.Perm (List.reverse ["t1", "t2"]) ["t1", "t2"]
    ∧ (runCycle gwTwo List.reverse 1 ∅).calls = [("t2", 1), ("t1", 1)] := by
  have hperm : List.Perm (List.reverse ["t1", "t2"]) ["t1", "t2"] :=
    List.reverse_perm ["t1", "t2"]
  have h := (cycle_topic_iteration gwTwo List.reverse 1 ∅ ["t1", "t2"] rfl hperm
    (fun t => ⟨([], []), rfl⟩)).1
  exact ⟨rfl, hperm, by simpa using h⟩

end TopicStreams
